import Mathlib

/-!
Verification development for the RLS security scanner.

The repository under verification is a TypeScript application with three core
modules:

* `src/lib/encryption.ts` — the credential vault: AES-256-GCM sealing of OAuth
  tokens, transported as a single base64 blob laid out `iv ++ ciphertext ++ tag`
  (`encrypt`, `decrypt`, `getEncryptionKey`);
* `src/lib/supabase-oauth.ts` — the token lifecycle manager
  (`getValidAccessToken`, `refreshAccessToken`, `storeTokens`);
* `src/lib/scanner.ts` — the exposure probe engine (`scanProject`, its inner
  `scanTable` closure, `analyzeWithAI`) together with
  `src/lib/supabase-management-api.ts` (`executeQuery`).

The development shallowly embeds these functions.  Byte strings are `List Nat`
with every element `< 256`; fallible code returns `Except`.  Network and
database effects are passed in as explicit outcome parameters, and the
completion order of concurrently running probes is an explicit schedule
parameter, so that the embedded functions are pure and executable.
-/

namespace RlsScanner

/-! ### Base64 codec

`Buffer.toString('base64')` / `Buffer.from(s, 'base64')` as used by
`encrypt` / `decrypt`.  Bytes are `Nat`s below 256; the encoded string is a
`List Char` over the standard base64 alphabet with `=` padding. -/

/-- The standard base64 alphabet: sextet value (0–63) to character.  Values
outside the range map to `'/'` (never produced on valid input). -/
def b64chr (n : Nat) : Char :=
  if n < 26 then Char.ofNat (65 + n)
  else if n < 52 then Char.ofNat (97 + (n - 26))
  else if n < 62 then Char.ofNat (48 + (n - 52))
  else if n = 62 then '+'
  else '/'

/-- Inverse alphabet: character to sextet value; non-alphabet characters
(including the pad `'='`) map to 64, an invalid marker. -/
def b64val (c : Char) : Nat :=
  if 'A' ≤ c ∧ c ≤ 'Z' then c.toNat - 65
  else if 'a' ≤ c ∧ c ≤ 'z' then c.toNat - 97 + 26
  else if '0' ≤ c ∧ c ≤ '9' then c.toNat - 48 + 52
  else if c = '+' then 62
  else if c = '/' then 63
  else 64

/-- Base64-encode a byte list (RFC 4648 with padding), as
`Buffer.toString('base64')` does. -/
def encB64 : List Nat → List Char
  | [] => []
  | [b1] => [b64chr (b1 / 4), b64chr (b1 % 4 * 16), '=', '=']
  | [b1, b2] => [b64chr (b1 / 4), b64chr (b1 % 4 * 16 + b2 / 16),
      b64chr (b2 % 16 * 4), '=']
  | b1 :: b2 :: b3 :: rest =>
      b64chr (b1 / 4) :: b64chr (b1 % 4 * 16 + b2 / 16) ::
      b64chr (b2 % 16 * 4 + b3 / 64) :: b64chr (b3 % 64) :: encB64 rest

/-- Base64-decode back to bytes; `none` on input that is not well-padded
base64. -/
def decB64 : List Char → Option (List Nat)
  | [] => some []
  | c1 :: c2 :: c3 :: c4 :: rest =>
      if c3 = '=' ∧ c4 = '=' ∧ rest = [] then
        if b64val c1 < 64 ∧ b64val c2 < 64 then
          some [b64val c1 * 4 + b64val c2 / 16]
        else none
      else if c4 = '=' ∧ rest = [] then
        if b64val c1 < 64 ∧ b64val c2 < 64 ∧ b64val c3 < 64 then
          some [b64val c1 * 4 + b64val c2 / 16,
                b64val c2 % 16 * 16 + b64val c3 / 4]
        else none
      else
        if b64val c1 < 64 ∧ b64val c2 < 64 ∧ b64val c3 < 64 ∧ b64val c4 < 64 then
          (decB64 rest).map fun bs =>
            (b64val c1 * 4 + b64val c2 / 16) ::
            (b64val c2 % 16 * 16 + b64val c3 / 4) ::
            (b64val c3 % 4 * 64 + b64val c4) :: bs
        else none
  | _ => none

theorem b64val_b64chr : ∀ n < 64, b64val (b64chr n) = n := by decide

theorem b64chr_ne_pad : ∀ n < 64, b64chr n ≠ '=' := by decide

/-- Decoding inverts encoding on genuine byte lists. -/
theorem decB64_encB64 (l : List Nat) (h : ∀ b ∈ l, b < 256) :
    decB64 (encB64 l) = some l := by
  induction l using encB64.induct with
  | case1 => simp [encB64, decB64]
  | case2 b1 =>
      have hb1 : b1 < 256 := h b1 (by simp)
      have h1 : b1 / 4 < 64 := by omega
      have h2 : b1 % 4 * 16 < 64 := by omega
      simp only [encB64, decB64]
      rw [b64val_b64chr _ h1, b64val_b64chr _ h2]
      split
      · split
        · simp only [Option.some.injEq, List.cons.injEq, and_true]
          omega
        · rename_i hc
          exact absurd ⟨h1, h2⟩ hc
      · rename_i hc
        exact absurd (by simp) hc
  | case3 b1 b2 =>
      have hb1 : b1 < 256 := h b1 (by simp)
      have hb2 : b2 < 256 := h b2 (by simp)
      have h1 : b1 / 4 < 64 := by omega
      have h2 : b1 % 4 * 16 + b2 / 16 < 64 := by omega
      have h3 : b2 % 16 * 4 < 64 := by omega
      simp only [encB64, decB64]
      rw [b64val_b64chr _ h1, b64val_b64chr _ h2, b64val_b64chr _ h3]
      split
      · rename_i hc
        exact absurd hc.1 (b64chr_ne_pad _ h3)
      · split
        · split
          · simp only [Option.some.injEq, List.cons.injEq, and_true]
            exact ⟨by omega, by omega⟩
          · rename_i hc
            exact absurd ⟨h1, h2, h3⟩ hc
        · rename_i hc
          exact absurd (by simp) hc
  | case4 b1 b2 b3 rest ih =>
      have hb1 : b1 < 256 := h b1 (by simp)
      have hb2 : b2 < 256 := h b2 (by simp)
      have hb3 : b3 < 256 := h b3 (by simp)
      have h1 : b1 / 4 < 64 := by omega
      have h2 : b1 % 4 * 16 + b2 / 16 < 64 := by omega
      have h3 : b2 % 16 * 4 + b3 / 64 < 64 := by omega
      have h4 : b3 % 64 < 64 := by omega
      have hrest : ∀ b ∈ rest, b < 256 := fun b hb => h b (by simp [hb])
      simp only [encB64, decB64]
      rw [b64val_b64chr _ h1, b64val_b64chr _ h2, b64val_b64chr _ h3, b64val_b64chr _ h4]
      split
      · rename_i hc
        exact absurd hc.1 (b64chr_ne_pad _ h3)
      · split
        · rename_i hc
          exact absurd hc.1 (b64chr_ne_pad _ h4)
        · split
          · rw [ih hrest]
            simp only [Option.map_some', Option.some.injEq, List.cons.injEq, and_true]
            exact ⟨by omega, by omega, by omega⟩
          · rename_i hc
            exact absurd ⟨h1, h2, h3, h4⟩ hc

/-- Encoding a non-empty byte list yields a non-empty string. -/
theorem encB64_ne_nil (l : List Nat) (h : l ≠ []) : encB64 l ≠ [] := by
  match l, h with
  | [b1], _ => simp [encB64]
  | [b1, b2], _ => simp [encB64]
  | b1 :: b2 :: b3 :: rest, _ => simp [encB64]

/-! ### Credential vault (`src/lib/encryption.ts`)

`encrypt`/`decrypt` use Node's `crypto` AES-256-GCM.  The AES-GCM primitive
itself is modelled abstractly by a `CipherCore` bundle: GCM encrypts with a
counter-mode keystream (`ctr`, an involution on the data for a fixed key and
nonce, since it XORs a key/nonce-derived stream) and authenticates with a tag
function of the key, nonce and ciphertext (`tag`, 16 bytes).  Everything
around the primitive — argument validation, key configuration, the
`iv ++ ciphertext ++ tag` blob layout, base64 transport, and tag verification
on decrypt — is embedded concretely from the source. -/

/-- Error taxonomy of the vault, following §7 of the specification.
`invalidInput` is the `'Cannot encrypt/decrypt empty string'` throw,
`keyConfigError` the `ENCRYPTION_KEY` validation throw in `getEncryptionKey`,
and `integrityError` the GCM authentication failure thrown by
`decipher.final()`. -/
inductive CryptoError
  | invalidInput
  | keyConfigError
  | integrityError
deriving DecidableEq, Repr

/-- Abstract AES-GCM core: a counter-mode keystream transform and a tag
(GHASH) function, with the algebraic facts the surrounding code relies on:
the transform preserves length and byte range and is an involution for a
fixed key and nonce (GCM decryption re-runs the same counter stream), and
tags are 16 bytes (`TAG_LENGTH`). -/
structure CipherCore where
  ctr : List Nat → List Nat → List Nat → List Nat
  tag : List Nat → List Nat → List Nat → List Nat
  ctr_length : ∀ k iv d, (ctr k iv d).length = d.length
  ctr_ctr : ∀ k iv d, ctr k iv (ctr k iv d) = d
  ctr_lt : ∀ k iv d, (∀ b ∈ d, b < 256) → ∀ b ∈ ctr k iv d, b < 256
  tag_length : ∀ k iv d, (tag k iv d).length = 16
  tag_lt : ∀ k iv d, ∀ b ∈ tag k iv d, b < 256

/-- `getEncryptionKey`: the key is process-wide configuration; a missing or
wrong-length key is an error before any cryptography runs.  The source checks
for 64 hex characters; the model receives the decoded 32 bytes. -/
def getEncryptionKey (key : List Nat) : Except CryptoError (List Nat) :=
  if key.length = 32 then .ok key else .error .keyConfigError

/-- `encrypt(plaintext)`: rejects the empty string, loads the key, draws a
random 16-byte `iv` (here a parameter), and returns the base64 encoding of
`iv ++ ciphertext ++ authTag`. -/
def encrypt (C : CipherCore) (key iv pt : List Nat) :
    Except CryptoError (List Char) :=
  if pt = [] then .error .invalidInput
  else
    (getEncryptionKey key).bind fun k =>
      .ok (encB64 (iv ++ C.ctr k iv pt ++ C.tag k iv (C.ctr k iv pt)))

/-- The byte-level part of `decrypt`: split the blob as
`iv = combined[0..16)`, `authTag = combined[len-16..len)`,
`encrypted = combined[16..len-16)`; verify the tag (GCM `decipher.final()`
throws when it does not match) and only then return the plaintext. -/
def decryptBytes (C : CipherCore) (k combined : List Nat) :
    Except CryptoError (List Nat) :=
  let iv := combined.take 16
  let authTag := combined.drop (combined.length - 16)
  let encrypted := (combined.take (combined.length - 16)).drop 16
  if C.tag k iv encrypted = authTag then .ok (C.ctr k iv encrypted)
  else .error .integrityError

/-- `decrypt(encryptedData)`: rejects the empty string, loads the key,
base64-decodes the blob and runs the byte-level decryption.  (Node's base64
decoder never throws; input that is not genuine base64 yields bytes whose
tag cannot verify, so the failure mode is the integrity error.) -/
def decrypt (C : CipherCore) (key : List Nat) (encryptedData : List Char) :
    Except CryptoError (List Nat) :=
  if encryptedData = [] then .error .invalidInput
  else
    (getEncryptionKey key).bind fun k =>
      match decB64 encryptedData with
      | none => .error .integrityError
      | some combined => decryptBytes C k combined

/-- Flip bit `j` (0–7) of the byte at index `i`; out-of-range indices leave
the list unchanged. -/
def flipBit (i j : Nat) (l : List Nat) : List Nat :=
  l.set i ((l.getD i 0) ^^^ (1 <<< j))

/-! ### Token lifecycle manager (`src/lib/supabase-oauth.ts`)

The credential store holds at most one `integrations` row per
`(user_id, provider)` pair; it is modelled as an `Option Integration`.
Database reads/writes and the token-endpoint HTTP exchange are explicit
parameters; times are milliseconds since the epoch (`Date.getTime()`). -/

/-- One row of the `integrations` table (the Credential Record).  The token
fields hold sealed blobs as produced by `encrypt`; `token_expires_at` is the
parsed ISO timestamp in epoch milliseconds. -/
structure Integration where
  id : String
  user_id : String
  access_token : List Char
  refresh_token : List Char
  token_expires_at : Nat
  updated_at : Nat
deriving DecidableEq, Repr

/-- The token endpoint's success payload (`TokenResponse`).  The token
strings are their UTF-8 bytes, ready for sealing. -/
structure TokenResponse where
  access_token : List Nat
  refresh_token : List Nat
  expires_in : Nat
  token_type : String
deriving DecidableEq, Repr

/-- Outcome of the `fetch` against the OAuth token endpoint: a non-OK HTTP
response, or an OK response whose JSON parsed to a `TokenResponse`. -/
inductive RefreshOutcome
  | httpError (status : Nat) (body : String)
  | success (tokens : TokenResponse)
deriving DecidableEq, Repr

/-- Error taxonomy of the token lifecycle manager.  `reauthorizationRequired`
is the `'Token refresh failed. Please reconnect your Supabase account.'`
throw; `cryptoFailure` propagates an `encrypt`/`decrypt` throw. -/
inductive TokenError
  | noIntegrationFound
  | integrationNotFound
  | reauthorizationRequired
  | cryptoFailure (e : CryptoError)
deriving DecidableEq, Repr

/-- `storeTokens(userId, tokens, integrationId?)`: seals both tokens, computes
the absolute expiry `Date.now() + expires_in * 1000`, and writes all fields of
the record in one `update` (when `integrationId` is given) or one `upsert` on
`(user_id, provider)`.  The single statement is the atomic replace; the model
returns the store after it.  `ivA`/`ivR` are the random nonces drawn inside
the two `encrypt` calls; an `encrypt` throw propagates before any write. -/
def storeTokens (C : CipherCore) (key ivA ivR : List Nat) (userId : String)
    (tokens : TokenResponse) (nowMs : Nat) (integrationId : Option String)
    (store : Option Integration) :
    Except TokenError (Option Integration) :=
  match encrypt C key ivA tokens.access_token with
  | .error e => .error (.cryptoFailure e)
  | .ok encryptedAccessToken =>
    match encrypt C key ivR tokens.refresh_token with
    | .error e => .error (.cryptoFailure e)
    | .ok encryptedRefreshToken =>
      let expiresAt := nowMs + tokens.expires_in * 1000
      match integrationId with
      | some iid =>
          .ok (store.map fun i =>
            if i.id = iid then
              { i with
                access_token := encryptedAccessToken
                refresh_token := encryptedRefreshToken
                token_expires_at := expiresAt
                updated_at := nowMs }
            else i)
      | none =>
          .ok (some
            { id := (store.map (·.id)).getD "new"
              user_id := userId
              access_token := encryptedAccessToken
              refresh_token := encryptedRefreshToken
              token_expires_at := expiresAt
              updated_at := nowMs })

/-- `refreshAccessToken(integrationId)`: looks the record up, unseals the
refresh token, exchanges it at the token endpoint.  A non-OK response deletes
the record and throws the reauthorization error; an OK response overwrites
the record via `storeTokens` and returns the fresh tokens.  The result pairs
the store after the call with the thrown/returned value. -/
def refreshAccessToken (C : CipherCore) (key ivA ivR : List Nat)
    (store : Option Integration) (resp : RefreshOutcome) (nowMs : Nat) :
    Option Integration × Except TokenError TokenResponse :=
  match store with
  | none => (store, .error .integrationNotFound)
  | some integration =>
    match decrypt C key integration.refresh_token with
    | .error e => (store, .error (.cryptoFailure e))
    | .ok _refreshToken =>
      match resp with
      | .httpError _ _ => (none, .error .reauthorizationRequired)
      | .success tokens =>
        match storeTokens C key ivA ivR integration.user_id tokens nowMs
            (some integration.id) store with
        | .error e => (store, .error e)
        | .ok store' => (store', .ok tokens)

/-- `getValidAccessToken(userId)`: looks the record up; when the stored expiry
is strictly more than five minutes in the future, unseals and returns the
stored access token without touching the token endpoint; otherwise runs the
refresh path and returns the fresh access token.  The third component records
whether the refresh path was invoked. -/
def getValidAccessToken (C : CipherCore) (key ivA ivR : List Nat)
    (store : Option Integration) (resp : RefreshOutcome) (nowMs : Nat) :
    Option Integration × Except TokenError (List Nat) × Bool :=
  match store with
  | none => (store, .error .noIntegrationFound, false)
  | some integration =>
    if nowMs + 5 * 60 * 1000 < integration.token_expires_at then
      (store, (decrypt C key integration.access_token).mapError .cryptoFailure,
        false)
    else
      let r := refreshAccessToken C key ivA ivR store resp nowMs
      (r.1, r.2.map (·.access_token), true)

/-! ### Exposure scanning engine (`src/lib/scanner.ts`,
`src/lib/supabase-management-api.ts`)

The network is explicit: the Management-API catalog query is an
`HttpResponse` plus its parsed rows, each per-table anonymous read is a
`ProbeOutcome`, and each Claude call is an `AiOutcome`.  Within one
concurrency group the `vulnerabilities.push` calls happen in the order the
concurrent `scanTable` promises complete; that completion order is the
`sched` parameter (a permutation of each group). -/

/-- One row sampled from a table by the anonymous probe: column name/value
pairs in `Object.keys` order. -/
abbrev SampleRow := List (String × String)

/-- Outcome of the anonymous `select('*').limit(1)` probe on one table:
a successful read with its rows, a PostgREST-level error (`anonError`
non-null or `anonData` null), or a thrown exception (caught by the
`try`/`catch` inside `scanTable`). -/
inductive ProbeOutcome
  | rows (data : List SampleRow)
  | queryError
  | exception
deriving DecidableEq, Repr

/-- The structured payload `analyzeWithAI` expects Claude to return. -/
structure AiAnalysis where
  risk_assessment : String
  sensitive_data_found : List String
  recommendations : List String
  auto_fix_sql : Option String
deriving DecidableEq, Repr

/-- Outcome of one Claude call: the service threw / was unreachable, the
reply had no text block or no `{...}` JSON payload or unparsable JSON
(all collapse to `failed`, each returning `undefined` in the source), or a
parsed analysis. -/
inductive AiOutcome
  | failed
  | parsed (a : AiAnalysis)
deriving DecidableEq, Repr

/-- `analyzeWithAI`: returns `undefined` immediately when no Anthropic client
is configured; otherwise returns the parsed analysis, or `undefined` on any
failure (the whole body is wrapped in `try`/`catch`). -/
def analyzeWithAI (anthropic : Bool) (outcome : AiOutcome) :
    Option AiAnalysis :=
  if anthropic then
    match outcome with
    | .failed => none
    | .parsed a => some a
  else none

/-- `Vulnerability`.  `leaked_fields` and `sample_data` are optional in the
TypeScript interface but always set at the single construction site, so the
model makes them plain fields. -/
structure Vulnerability where
  table : String
  issue : String
  severity : String
  details : String
  leaked_fields : List String
  sample_data : SampleRow
  ai_analysis : Option AiAnalysis
deriving DecidableEq, Repr

/-- One row of the schema-discovery query: `table_name` with its
`relrowsecurity` flag. -/
structure CatalogRow where
  table_name : String
  rls_enabled : Bool
deriving DecidableEq, Repr

/-- A Management-API HTTP response, as far as `executeQuery` inspects it. -/
structure HttpResponse where
  ok : Bool
  status : Nat
  body : String
deriving DecidableEq, Repr

/-- `executeQuery` (`supabase-management-api.ts`): throws
`'Failed to execute query: <status> <body>'` on a non-OK response, else
returns the parsed rows. -/
def executeQuery (resp : HttpResponse) (rows : List CatalogRow) :
    Except String (List CatalogRow) :=
  if resp.ok then .ok rows
  else .error ("Failed to execute query: " ++ toString resp.status ++ " " ++ resp.body)

/-- Structural worker for `chunksOf`: the first argument bounds the number of
remaining loop iterations (the slice loop advances by at least one element
per step, so `l.length` iterations always suffice). -/
def chunksOfAux (n : Nat) : Nat → List α → List (List α)
  | _, [] => []
  | 0, _ :: _ => []
  | fuel + 1, a :: as => ((a :: as).take n) :: chunksOfAux n fuel ((a :: as).drop n)

/-- The scan loop `for (let i = 0; i < n; i += CONCURRENCY_LIMIT)` slices the
table list into consecutive chunks of at most `n` names. -/
def chunksOf (n : Nat) (l : List α) : List (List α) := chunksOfAux n l.length l

/-- The fuel bound of `chunksOfAux` is irrelevant once it covers the list
length (for a positive chunk size). -/
theorem chunksOfAux_fuel (n : Nat) (hn : 0 < n) :
    ∀ fuel fuel' (l : List α), l.length ≤ fuel → l.length ≤ fuel' →
      chunksOfAux n fuel l = chunksOfAux n fuel' l := by
  intro fuel
  induction fuel with
  | zero =>
      intro fuel' l hl _
      have : l = [] := List.length_eq_zero.mp (by omega)
      subst this
      cases fuel' <;> rfl
  | succ f ih =>
      intro fuel' l hl hl'
      cases l with
      | nil => cases fuel' <;> rfl
      | cons a as =>
          cases fuel' with
          | zero => simp at hl'
          | succ g =>
              simp only [chunksOfAux]
              congr 1
              apply ih g
              · simp only [List.length_drop, List.length_cons]
                simp only [List.length_cons] at hl
                omega
              · simp only [List.length_drop, List.length_cons]
                simp only [List.length_cons] at hl'
                omega

/-- Unfolding equation of `chunksOf` on a non-empty list. -/
theorem chunksOf_cons (n : Nat) (hn : 0 < n) (a : α) (as : List α) :
    chunksOf n (a :: as) =
      ((a :: as).take n) :: chunksOf n ((a :: as).drop n) := by
  show chunksOfAux n (as.length + 1) (a :: as) = _
  rw [chunksOfAux]
  congr 1
  apply chunksOfAux_fuel n hn
  · simp only [List.length_drop, List.length_cons]
    omega
  · exact Nat.le_refl _

/-- `CONCURRENCY_LIMIT` in `scanProject`. -/
def CONCURRENCY_LIMIT : Nat := 5

/-- The `options` argument of `scanProject` with its defaulted fields. -/
structure ScanOptions where
  maxTables : Option Nat := none
  enableAI : Option Bool := none
deriving DecidableEq, Repr

/-- The `summary` component of a scan result. -/
structure ScanSummary where
  total_tables : Nat
  vulnerable_tables : Nat
  secure_tables : Nat
deriving DecidableEq, Repr

/-- `ScanResult`. -/
structure ScanResult where
  success : Bool
  vulnerabilities : List Vulnerability
  summary : ScanSummary
  error : Option String
deriving DecidableEq, Repr

/-- The `scanTable` closure inside `scanProject`: probes one table with the
anonymous client and, when the read succeeds with at least one row, emits the
finding built from the first row (column names, sample data, RLS-dependent
narrative, severity `'critical'`, optional AI annotation).  A failed or empty
read, or a thrown exception, emits nothing — and surfaces no error. -/
def scanTable (anthropic : Bool) (tableRlsStatus : List (String × Bool))
    (probe : String → ProbeOutcome) (ai : String → AiOutcome)
    (tableName : String) : Option Vulnerability :=
  match probe tableName with
  | .rows (firstRow :: _) =>
      let fields := firstRow.map (·.1)
      let rlsEnabled := (tableRlsStatus.lookup tableName).getD false
      let aiAnalysis := analyzeWithAI anthropic (ai tableName)
      some
        { table := tableName
          issue :=
            if rlsEnabled then
              "RLS is enabled but policy is too permissive (public access)"
            else "Anonymous users can read data from this table"
          severity := "critical"
          details :=
            if rlsEnabled then
              "Table \"" ++ tableName ++
                "\" has RLS enabled, but a policy is allowing broad public access. "
                ++ toString fields.length ++ " fields are exposed."
            else
              "Table \"" ++ tableName ++
                "\" is publicly accessible without authentication. "
                ++ toString fields.length ++ " fields are exposed."
          leaked_fields := fields
          sample_data := firstRow
          ai_analysis := aiAnalysis }
  | .rows [] => none
  | .queryError => none
  | .exception => none

/-- `scanProject`.  Step 1 runs the catalog query; a failure aborts with
`success = false`, zero counts and the error message, and an empty catalog
returns `success = true` with zero counts.  Step 2 slices the first
`maxTables` tables into groups of `CONCURRENCY_LIMIT` and probes each group
concurrently; within a group the findings are pushed in completion order
(`sched`, a permutation of the group).  The summary counts the scanned
tables, the findings, and their difference. -/
def scanProject (options : ScanOptions) (hasAnthropicKey : Bool)
    (catalogResp : HttpResponse) (catalogRows : List CatalogRow)
    (probe : String → ProbeOutcome) (ai : String → AiOutcome)
    (sched : List String → List String) : ScanResult :=
  let maxTables := options.maxTables.getD 10
  let enableAI := options.enableAI.getD true
  let anthropic := enableAI && hasAnthropicKey
  match executeQuery catalogResp catalogRows with
  | .error e =>
      { success := false
        vulnerabilities := []
        summary := ⟨0, 0, 0⟩
        error := some e }
  | .ok result =>
    if result.isEmpty then
      { success := true
        vulnerabilities := []
        summary := ⟨0, 0, 0⟩
        error := none }
    else
      let tableNames := result.map (·.table_name)
      let tableRlsStatus := result.map fun row => (row.table_name, row.rls_enabled)
      let tablesToScan := tableNames.take maxTables
      let scannedCount := tablesToScan.length
      let vulnerabilities :=
        ((chunksOf CONCURRENCY_LIMIT tablesToScan).map fun chunk =>
          (sched chunk).filterMap (scanTable anthropic tableRlsStatus probe ai)).flatten
      { success := true
        vulnerabilities := vulnerabilities
        summary :=
          { total_tables := scannedCount
            vulnerable_tables := vulnerabilities.length
            secure_tables := scannedCount - vulnerabilities.length }
        error := none }

/-! ### Temporal model of one scan

`scanProject` awaits the catalog query, then runs
`for (...; i += CONCURRENCY_LIMIT) { await Promise.all(chunk.map(scanTable)) }`:
all probes of one chunk are started together and the loop proceeds only once
all of them have finished.  A scan execution therefore linearises into a
trace: the catalog query completes, then for each group all starts (in
program order) followed by all finishes (in completion order `sched`). -/

/-- Observable events of one scan execution. -/
inductive ScanEvent
  | catalogQuery
  | probeStart (table : String)
  | probeFinish (table : String)
deriving DecidableEq, Repr

/-- The events of one concurrency group: `Promise.all(chunk.map(scanTable))`
starts every probe of the chunk, and the group's await completes only after
every probe has finished (in completion order `sched chunk`). -/
def groupTrace (sched : List String → List String) (chunk : List String) :
    List ScanEvent :=
  chunk.map .probeStart ++ (sched chunk).map .probeFinish

/-- The trace of one scan over the discovered `tableNames`: the schema
discovery completes first, then the groups of `CONCURRENCY_LIMIT` tables run
strictly one after another. -/
def scanTrace (sched : List String → List String) (tableNames : List String)
    (maxTables : Nat) : List ScanEvent :=
  .catalogQuery ::
    ((chunksOf CONCURRENCY_LIMIT (tableNames.take maxTables)).map
      (groupTrace sched)).flatten

/-- Is the event the start of a probe? -/
def isProbeStart : ScanEvent → Bool
  | .probeStart _ => true
  | _ => false

/-- Is the event the completion of a probe? -/
def isProbeFinish : ScanEvent → Bool
  | .probeFinish _ => true
  | _ => false

/-- Number of probes in flight after a (prefix of a) trace: probes started
minus probes finished. -/
def inFlight (tr : List ScanEvent) : Nat :=
  tr.countP isProbeStart - tr.countP isProbeFinish

/-! ### Concrete instances for witnesses

A small executable `CipherCore` (XOR keystream, checksum tag) used to
evaluate the vault theorems at concrete inputs, plus concrete sample data for
the scanner theorems. -/

/-- A concrete `CipherCore` instance: the keystream XORs every byte with a
constant, the tag is fifteen zero bytes followed by a byte checksum of the
ciphertext. -/
def xorCipher : CipherCore where
  ctr := fun _ _ d => d.map (· ^^^ 170)
  tag := fun _ _ d =>
    List.replicate 15 0 ++ [d.foldl (fun a b => (a + b) % 256) 0]
  ctr_length := by intro k iv d; simp
  ctr_ctr := by
    intro k iv d
    simp only [List.map_map]
    have : ((· ^^^ 170) ∘ (· ^^^ 170) : Nat → Nat) = id := by
      funext b
      simp [Function.comp, Nat.xor_assoc]
    simp [this]
  ctr_lt := by
    intro k iv d hd b hb
    simp only [List.mem_map] at hb
    obtain ⟨a, ha, rfl⟩ := hb
    have h1 : a < 2 ^ 8 := hd a ha
    have h2 : 170 < 2 ^ 8 := by norm_num
    exact Nat.xor_lt_two_pow h1 h2
  tag_length := by intro k iv d; simp
  tag_lt := by
    intro k iv d b hb
    simp only [List.mem_append, List.mem_replicate, List.mem_singleton] at hb
    rcases hb with h | h
    · omega
    · subst h
      rcases d with _ | ⟨x, xs⟩
      · simp
      · have : ∀ (l : List Nat) (a : Nat), a < 256 →
            l.foldl (fun a b => (a + b) % 256) a < 256 := by
          intro l
          induction l with
          | nil => intro a ha; simpa using ha
          | cons y ys ih =>
              intro a ha
              simp only [List.foldl_cons]
              exact ih _ (Nat.mod_lt _ (by omega))
        simpa using this (x :: xs) 0 (by omega)

/-- A well-formed 32-byte key for witness evaluation. -/
def sampleKey : List Nat := List.replicate 32 7

/-- A 16-byte nonce for witness evaluation. -/
def sampleIv : List Nat := List.replicate 16 3

/-- A second 16-byte nonce for witness evaluation. -/
def sampleIv2 : List Nat := List.replicate 16 4

/-- A sealed blob for witness evaluation: `[9, 8]` sealed under `sampleKey`
with nonce `sampleIv`, extracted from `encrypt`'s `ok` result. -/
def sampleSealed : List Char :=
  (encrypt xorCipher sampleKey sampleIv [9, 8]).toOption.getD []

/-- A stored credential record for witness evaluation; both token fields are
genuine sealed blobs. -/
def sampleIntegration : Integration where
  id := "integ-1"
  user_id := "user-1"
  access_token := sampleSealed
  refresh_token := sampleSealed
  token_expires_at := 10000000
  updated_at := 0

/-! ### Vault lemmas and claims C1, C8 -/

/-- `decrypt`'s subarray arithmetic recovers the three regions of a blob laid
out `iv(16) ++ ciphertext ++ tag(16)` exactly. -/
theorem decryptBytes_layout (C : CipherCore) (k iv ct tg : List Nat)
    (hiv : iv.length = 16) (htg : tg.length = 16) :
    decryptBytes C k (iv ++ ct ++ tg) =
      if C.tag k iv ct = tg then .ok (C.ctr k iv ct)
      else .error .integrityError := by
  have hmid : (iv ++ ct).length = (iv ++ ct ++ tg).length - 16 := by
    simp [hiv, htg]
    omega
  have h1 : (iv ++ ct ++ tg).take 16 = iv := by
    rw [List.append_assoc]
    exact List.take_left' hiv
  have h2 : (iv ++ ct ++ tg).drop ((iv ++ ct ++ tg).length - 16) = tg :=
    List.drop_left' hmid
  have h3 : ((iv ++ ct ++ tg).take ((iv ++ ct ++ tg).length - 16)).drop 16 = ct := by
    rw [List.take_left' hmid]
    exact List.drop_left' hiv
  unfold decryptBytes
  rw [h1, h2, h3]

/-- Every byte of a well-formed blob `iv ++ ct ++ tag` is below 256. -/
theorem blob_bytes_lt (C : CipherCore) (k iv pt : List Nat)
    (hptb : ∀ b ∈ pt, b < 256) (hivb : ∀ b ∈ iv, b < 256) :
    ∀ b ∈ iv ++ C.ctr k iv pt ++ C.tag k iv (C.ctr k iv pt), b < 256 := by
  intro b hb
  simp only [List.mem_append] at hb
  rcases hb with (hb | hb) | hb
  · exact hivb b hb
  · exact C.ctr_lt k iv pt hptb b hb
  · exact C.tag_lt k iv _ b hb

/-- A well-formed blob is non-empty (its nonce region alone has 16 bytes). -/
theorem blob_ne_nil (C : CipherCore) (k iv pt : List Nat)
    (hiv : iv.length = 16) :
    iv ++ C.ctr k iv pt ++ C.tag k iv (C.ctr k iv pt) ≠ [] := by
  intro h
  have := congrArg List.length h
  simp [hiv] at this

/-- C1: for every non-empty plaintext with a well-formed 32-byte key
configured, `decrypt (encrypt s) = s`; `encrypt` produces a single
base64-encoded blob laid out nonce (16 bytes), then ciphertext, then
authentication tag (16 bytes). -/
theorem decrypt_encrypt_roundtrip (C : CipherCore) (key iv pt : List Nat)
    (hkey : key.length = 32) (hpt : pt ≠ []) (hptb : ∀ b ∈ pt, b < 256)
    (hiv : iv.length = 16) (hivb : ∀ b ∈ iv, b < 256) :
    encrypt C key iv pt =
      .ok (encB64 (iv ++ C.ctr key iv pt ++ C.tag key iv (C.ctr key iv pt))) ∧
    (encrypt C key iv pt).bind (decrypt C key) = .ok pt := by
  have hk : getEncryptionKey key = .ok key := by
    simp [getEncryptionKey, hkey]
  have henc : encrypt C key iv pt =
      .ok (encB64 (iv ++ C.ctr key iv pt ++ C.tag key iv (C.ctr key iv pt))) := by
    simp [encrypt, hpt, hk, Except.bind]
  refine ⟨henc, ?_⟩
  rw [henc]
  show decrypt C key _ = _
  have hne : encB64 (iv ++ C.ctr key iv pt ++ C.tag key iv (C.ctr key iv pt)) ≠ [] :=
    encB64_ne_nil _ (blob_ne_nil C key iv pt hiv)
  have hdec : decB64 (encB64 (iv ++ C.ctr key iv pt ++ C.tag key iv (C.ctr key iv pt)))
      = some (iv ++ C.ctr key iv pt ++ C.tag key iv (C.ctr key iv pt)) :=
    decB64_encB64 _ (blob_bytes_lt C key iv pt hptb hivb)
  rw [decrypt, if_neg hne, hk]
  simp only [Except.bind]
  rw [hdec]
  show decryptBytes C key _ = _
  rw [decryptBytes_layout C key iv _ _ hiv (C.tag_length key iv _),
    if_pos rfl, C.ctr_ctr]

/-- C1 witness: the roundtrip evaluated at a concrete cipher core, key,
nonce and plaintext. -/
theorem decrypt_encrypt_roundtrip_witness :
    sampleKey.length = 32 ∧ ([9, 8] : List Nat) ≠ [] ∧ sampleIv.length = 16 ∧
    (encrypt xorCipher sampleKey sampleIv [9, 8]).bind (decrypt xorCipher sampleKey)
      = .ok [9, 8] :=
  ⟨by decide, by decide, by decide,
    (decrypt_encrypt_roundtrip xorCipher sampleKey sampleIv [9, 8]
      (by decide) (by decide) (by decide) (by decide) (by decide)).2⟩

/-- Flipping a bit keeps every byte below 256. -/
theorem flipBit_bytes_lt (i j : Nat) (l : List Nat) (hj : j < 8)
    (h : ∀ b ∈ l, b < 256) : ∀ b ∈ flipBit i j l, b < 256 := by
  intro b hb
  rcases List.mem_or_eq_of_mem_set hb with hb' | rfl
  · exact h b hb'
  · have hd : l.getD i 0 < 256 := by
      rcases Nat.lt_or_ge i l.length with h' | h'
      · rw [List.getD_eq_getElem l 0 h']
        exact h _ (List.getElem_mem h')
      · rw [List.getD_eq_default l 0 h']
        omega
    have hs : (1 : Nat) <<< j < 256 := by
      rw [Nat.shiftLeft_eq, one_mul]
      calc (2 : Nat) ^ j < 2 ^ 8 := Nat.pow_lt_pow_right (by omega) hj
        _ = 256 := by norm_num
    have := Nat.xor_lt_two_pow (n := 8) (by simpa using hd) (by simpa using hs)
    simpa using this

/-- Flipping a bit at an in-range index changes the list. -/
theorem flipBit_ne (i j : Nat) (l : List Nat) (hi : i < l.length) :
    flipBit i j l ≠ l := by
  intro heq
  have h1 := congrArg (fun t => t.getD i 0) heq
  simp only [flipBit] at h1
  rw [List.getD_eq_getElem (l.set i (l.getD i 0 ^^^ 1 <<< j)) 0 (by simpa using hi),
    List.getElem_set_self, List.getD_eq_getElem l 0 hi] at h1
  have h2 : (1 : Nat) <<< j = 0 := by
    have h3 := congrArg (fun x => l[i] ^^^ x) h1
    simpa [← Nat.xor_assoc] using h3
  have h4 : 0 < (1 : Nat) <<< j := by
    rw [Nat.shiftLeft_eq, one_mul]
    exact Nat.pow_pos (by omega)
  omega

/-- A flip at an index beyond the left part of a concatenation happens in the
right part. -/
theorem flipBit_append_right (i j : Nat) (a b : List Nat) (h : a.length ≤ i) :
    flipBit i j (a ++ b) = a ++ flipBit (i - a.length) j b := by
  unfold flipBit
  rw [List.set_append_right i _ h, List.getD_append_right a b 0 i h]

/-- A flip at an index inside the left part of a concatenation happens in the
left part. -/
theorem flipBit_append_left (i j : Nat) (a b : List Nat) (h : i < a.length) :
    flipBit i j (a ++ b) = flipBit i j a ++ b := by
  unfold flipBit
  rw [List.set_append_left i _ h, List.getD_append a b 0 i h]

/-- Flipping a bit preserves the length. -/
theorem flipBit_length (i j : Nat) (l : List Nat) :
    (flipBit i j l).length = l.length := by
  simp [flipBit]

/-- C8: flipping any single bit in the ciphertext region or the
authentication-tag region of a sealed blob makes `decrypt` fail with the
integrity error instead of returning a plaintext.  Byte `i` of the blob
(`16 ≤ i`, so past the nonce) has bit `j` flipped; for a flip inside the
ciphertext region the hypothesis `hct` supplies the AES-GCM authenticity
fact that the tag of the altered ciphertext differs (for a flip inside the
tag region no such assumption is needed). -/
theorem decrypt_tampered_blob (C : CipherCore) (key iv pt : List Nat)
    (hkey : key.length = 32) (hptb : ∀ b ∈ pt, b < 256)
    (hiv : iv.length = 16) (hivb : ∀ b ∈ iv, b < 256)
    (i j : Nat) (hj : j < 8) (hlo : 16 ≤ i)
    (hhi : i < 32 + (C.ctr key iv pt).length)
    (hct : i < 16 + (C.ctr key iv pt).length →
      C.tag key iv (flipBit (i - 16) j (C.ctr key iv pt)) ≠
        C.tag key iv (C.ctr key iv pt)) :
    decrypt C key
      (encB64 (flipBit i j (iv ++ C.ctr key iv pt ++ C.tag key iv (C.ctr key iv pt))))
      = .error .integrityError := by
  set ct := C.ctr key iv pt with hctdef
  set tg := C.tag key iv ct with htgdef
  have htglen : tg.length = 16 := C.tag_length key iv ct
  have hk : getEncryptionKey key = .ok key := by
    simp [getEncryptionKey, hkey]
  have hblobb : ∀ b ∈ iv ++ ct ++ tg, b < 256 :=
    blob_bytes_lt C key iv pt hptb hivb
  have htamperb : ∀ b ∈ flipBit i j (iv ++ ct ++ tg), b < 256 :=
    flipBit_bytes_lt i j _ hj hblobb
  have hlen : (flipBit i j (iv ++ ct ++ tg)).length = 32 + ct.length := by
    rw [flipBit_length]
    simp [hiv, htglen]
    omega
  have hne : encB64 (flipBit i j (iv ++ ct ++ tg)) ≠ [] := by
    apply encB64_ne_nil
    intro h
    rw [h] at hlen
    simp at hlen
    omega
  have hdec : decB64 (encB64 (flipBit i j (iv ++ ct ++ tg)))
      = some (flipBit i j (iv ++ ct ++ tg)) :=
    decB64_encB64 _ htamperb
  rw [decrypt, if_neg hne, hk]
  simp only [Except.bind]
  rw [hdec]
  show decryptBytes C key _ = _
  rcases Nat.lt_or_ge i (16 + ct.length) with hcase | hcase
  · -- the flip lands in the ciphertext region
    have hsplit : flipBit i j (iv ++ ct ++ tg)
        = iv ++ flipBit (i - 16) j ct ++ tg := by
      rw [List.append_assoc, flipBit_append_right i j iv (ct ++ tg) (by omega),
        flipBit_append_left (i - iv.length) j ct tg (by omega), hiv,
        ← List.append_assoc]
    rw [hsplit, decryptBytes_layout C key iv _ tg hiv htglen,
      if_neg (hct hcase)]
  · -- the flip lands in the authentication-tag region
    have hsplit : flipBit i j (iv ++ ct ++ tg)
        = iv ++ ct ++ flipBit (i - (16 + ct.length)) j tg := by
      rw [flipBit_append_right i j (iv ++ ct) tg (by simp [hiv]; omega)]
      congr 2
      simp [hiv]
    have htgne : flipBit (i - (16 + ct.length)) j tg ≠ tg :=
      flipBit_ne _ j tg (by omega)
    rw [hsplit, decryptBytes_layout C key iv ct _ hiv
      (by rw [flipBit_length, htglen])]
    rw [if_neg (fun h => htgne h.symm)]

/-- C8 witness: a concrete blob with bit 0 of ciphertext byte 0 (blob byte
16) flipped is rejected with the integrity error. -/
theorem decrypt_tampered_blob_witness :
    (16 : Nat) < 16 + (xorCipher.ctr sampleKey sampleIv [9, 8]).length ∧
    xorCipher.tag sampleKey sampleIv
        (flipBit 0 0 (xorCipher.ctr sampleKey sampleIv [9, 8])) ≠
      xorCipher.tag sampleKey sampleIv (xorCipher.ctr sampleKey sampleIv [9, 8]) ∧
    decrypt xorCipher sampleKey
      (encB64 (flipBit 16 0 (sampleIv ++ xorCipher.ctr sampleKey sampleIv [9, 8] ++
        xorCipher.tag sampleKey sampleIv (xorCipher.ctr sampleKey sampleIv [9, 8]))))
      = .error .integrityError :=
  ⟨by decide, by decide,
    decrypt_tampered_blob xorCipher sampleKey sampleIv [9, 8]
      (by decide) (by decide) (by decide) (by decide) 16 0
      (by decide) (by decide) (by decide) (fun _ => by decide)⟩

/-! ### Token lifecycle claims C4, C5 -/

/-- C4: with a stored credential record whose expiry is more than 5 minutes
past the current time, `getValidAccessToken` returns the decrypted stored
access token and never invokes the refresh path; with the expiry 5 minutes
away or less (or past), it invokes the refresh path. -/
theorem getValidAccessToken_five_minute_rule (C : CipherCore)
    (key ivA ivR : List Nat) (integ : Integration) (resp : RefreshOutcome)
    (nowMs : Nat) :
    (nowMs + 5 * 60 * 1000 < integ.token_expires_at →
      getValidAccessToken C key ivA ivR (some integ) resp nowMs =
        (some integ,
          (decrypt C key integ.access_token).mapError .cryptoFailure, false)) ∧
    (integ.token_expires_at ≤ nowMs + 5 * 60 * 1000 →
      (getValidAccessToken C key ivA ivR (some integ) resp nowMs).2.2 = true) := by
  constructor
  · intro h
    simp [getValidAccessToken, if_pos h]
  · intro h
    simp [getValidAccessToken, if_neg (Nat.not_lt.mpr h)]

/-- C4 witness: a record expiring far in the future is served from the store
without the refresh path; the decrypted value is the sealed plaintext. -/
theorem getValidAccessToken_five_minute_rule_witness :
    0 + 5 * 60 * 1000 < sampleIntegration.token_expires_at ∧
    getValidAccessToken xorCipher sampleKey sampleIv sampleIv2
        (some sampleIntegration) (.httpError 400 "invalid_grant") 0 =
      (some sampleIntegration,
        (decrypt xorCipher sampleKey sampleIntegration.access_token).mapError
          .cryptoFailure, false) :=
  ⟨by decide,
    (getValidAccessToken_five_minute_rule xorCipher sampleKey sampleIv sampleIv2
      sampleIntegration (.httpError 400 "invalid_grant") 0).1 (by decide)⟩

/-- C5: when the token-endpoint refresh response is an error,
`refreshAccessToken` deletes the stored credential record and raises the
reauthorization error; on a successful refresh the record is overwritten in
one update with the two newly sealed tokens and the absolute expiry
`now + expires_in`. -/
theorem refreshAccessToken_failure_and_success (C : CipherCore)
    (key ivA ivR : List Nat) (integ : Integration) (nowMs : Nat)
    (rt : List Nat) (hdec : decrypt C key integ.refresh_token = .ok rt) :
    (∀ status body,
      refreshAccessToken C key ivA ivR (some integ) (.httpError status body)
          nowMs = (none, .error .reauthorizationRequired)) ∧
    (∀ t ea er, encrypt C key ivA t.access_token = .ok ea →
      encrypt C key ivR t.refresh_token = .ok er →
      refreshAccessToken C key ivA ivR (some integ) (.success t) nowMs =
        (some { integ with
            access_token := ea
            refresh_token := er
            token_expires_at := nowMs + t.expires_in * 1000
            updated_at := nowMs }, .ok t)) := by
  constructor
  · intro status body
    simp [refreshAccessToken, hdec]
  · intro t ea er hea her
    simp [refreshAccessToken, hdec, storeTokens, hea, her]

/-- C5 witness: a concrete record whose refresh token unseals, hit with an
HTTP 400 refresh response, is deleted and the caller gets the
reauthorization error. -/
theorem refreshAccessToken_failure_and_success_witness :
    decrypt xorCipher sampleKey sampleIntegration.refresh_token = .ok [9, 8] ∧
    refreshAccessToken xorCipher sampleKey sampleIv sampleIv2
        (some sampleIntegration) (.httpError 400 "invalid_grant") 77 =
      (none, .error .reauthorizationRequired) :=
  ⟨by rfl,
    (refreshAccessToken_failure_and_success xorCipher sampleKey sampleIv
      sampleIv2 sampleIntegration 77 [9, 8] (by rfl)).1 400 "invalid_grant"⟩

/-! ### Scanner claims C2, C6, C3 -/

/-- C2: a table whose unprivileged read succeeds with at least one row yields
exactly one finding — severity `critical`, leaked fields the column names of
the first row, sample data that row, issue text chosen by the RLS flag; a
read that errors, throws or returns zero rows yields no finding and no
error. -/
theorem scanTable_classification (anthropic : Bool)
    (tableRlsStatus : List (String × Bool)) (probe : String → ProbeOutcome)
    (ai : String → AiOutcome) (tableName : String) :
    (∀ firstRow rest, probe tableName = .rows (firstRow :: rest) →
      ∃ v, scanTable anthropic tableRlsStatus probe ai tableName = some v ∧
        v.severity = "critical" ∧ v.table = tableName ∧
        v.leaked_fields = firstRow.map Prod.fst ∧
        v.sample_data = firstRow ∧
        v.issue = (if (tableRlsStatus.lookup tableName).getD false then
            "RLS is enabled but policy is too permissive (public access)"
          else "Anonymous users can read data from this table")) ∧
    ((probe tableName = .rows [] ∨ probe tableName = .queryError ∨
        probe tableName = .exception) →
      scanTable anthropic tableRlsStatus probe ai tableName = none) := by
  constructor
  · intro firstRow rest hp
    unfold scanTable
    rw [hp]
    exact ⟨_, rfl, rfl, rfl, rfl, rfl, rfl⟩
  · intro hp
    rcases hp with hp | hp | hp <;> simp [scanTable, hp]

/-- C2 witness: one exposed table with columns `id` and `secret` produces the
critical finding with those leaked fields. -/
theorem scanTable_classification_witness :
    (fun _ : String => ProbeOutcome.rows [[("id", "1"), ("secret", "x")]])
        "user_secrets" = .rows ([("id", "1"), ("secret", "x")] :: []) ∧
    ∃ v, scanTable false [("user_secrets", false)]
        (fun _ => .rows [[("id", "1"), ("secret", "x")]])
        (fun _ => .failed) "user_secrets" = some v ∧
      v.severity = "critical" ∧ v.table = "user_secrets" ∧
      v.leaked_fields = [("id", "1"), ("secret", "x")].map Prod.fst ∧
      v.sample_data = [("id", "1"), ("secret", "x")] ∧
      v.issue = (if (([("user_secrets", false)] : List (String × Bool)).lookup
          "user_secrets").getD false then
          "RLS is enabled but policy is too permissive (public access)"
        else "Anonymous users can read data from this table") :=
  ⟨rfl,
    (scanTable_classification false [("user_secrets", false)]
      (fun _ => .rows [[("id", "1"), ("secret", "x")]])
      (fun _ => .failed) "user_secrets").1 [("id", "1"), ("secret", "x")] [] rfl⟩

/-- C6: a failed catalog query aborts the whole scan with `success = false`,
no findings, an all-zero summary and a non-empty error string; when the
catalog query succeeds the scan returns `success = true` no matter what the
per-table probes do; an empty catalog is a non-error outcome. -/
theorem scanProject_schema_error_aborts (options : ScanOptions)
    (hasAnthropicKey : Bool) (catalogResp : HttpResponse)
    (catalogRows : List CatalogRow) (probe : String → ProbeOutcome)
    (ai : String → AiOutcome) (sched : List String → List String) :
    (catalogResp.ok = false →
      (scanProject options hasAnthropicKey catalogResp catalogRows probe ai
          sched).success = false ∧
      (scanProject options hasAnthropicKey catalogResp catalogRows probe ai
          sched).vulnerabilities = [] ∧
      (scanProject options hasAnthropicKey catalogResp catalogRows probe ai
          sched).summary = ⟨0, 0, 0⟩ ∧
      ∃ e, (scanProject options hasAnthropicKey catalogResp catalogRows probe
          ai sched).error = some e ∧ e ≠ "") ∧
    (catalogResp.ok = true →
      (scanProject options hasAnthropicKey catalogResp catalogRows probe ai
          sched).success = true) ∧
    (catalogResp.ok = true → catalogRows = [] →
      scanProject options hasAnthropicKey catalogResp catalogRows probe ai
          sched = ⟨true, [], ⟨0, 0, 0⟩, none⟩) := by
  refine ⟨?_, ?_, ?_⟩
  · intro hok
    refine ⟨by simp [scanProject, executeQuery, hok],
      by simp [scanProject, executeQuery, hok],
      by simp [scanProject, executeQuery, hok], ?_⟩
    refine ⟨"Failed to execute query: " ++ toString catalogResp.status ++ " " ++
      catalogResp.body, by simp [scanProject, executeQuery, hok], ?_⟩
    intro h
    have hlen := congrArg String.length h
    simp only [String.length_append] at hlen
    have h25 : ("Failed to execute query: ").length = 25 := by decide
    have h0 : ("" : String).length = 0 := by decide
    rw [h25, h0] at hlen
    omega
  · intro hok
    by_cases hrows : catalogRows.isEmpty <;>
      simp [scanProject, executeQuery, hok, hrows]
  · intro hok hrows
    subst hrows
    simp [scanProject, executeQuery, hok]

/-- C6 witness: an unreachable catalog endpoint produces the aborted result
with its non-empty error message. -/
theorem scanProject_schema_error_aborts_witness :
    (HttpResponse.mk false 500 "upstream timeout").ok = false ∧
    ((scanProject {} true (HttpResponse.mk false 500 "upstream timeout")
        [⟨"users", true⟩] (fun _ => .rows []) (fun _ => .failed)
        (fun l => l)).success = false ∧
      (scanProject {} true (HttpResponse.mk false 500 "upstream timeout")
        [⟨"users", true⟩] (fun _ => .rows []) (fun _ => .failed)
        (fun l => l)).vulnerabilities = [] ∧
      (scanProject {} true (HttpResponse.mk false 500 "upstream timeout")
        [⟨"users", true⟩] (fun _ => .rows []) (fun _ => .failed)
        (fun l => l)).summary = ⟨0, 0, 0⟩ ∧
      ∃ e, (scanProject {} true (HttpResponse.mk false 500 "upstream timeout")
        [⟨"users", true⟩] (fun _ => .rows []) (fun _ => .failed)
        (fun l => l)).error = some e ∧ e ≠ "") :=
  ⟨rfl,
    (scanProject_schema_error_aborts {} true
      (HttpResponse.mk false 500 "upstream timeout") [⟨"users", true⟩]
      (fun _ => .rows []) (fun _ => .failed) (fun l => l)).1 rfl⟩

/-- Concatenating the chunks recovers the original list. -/
theorem chunksOf_flatten (n : Nat) (hn : 0 < n) :
    ∀ l : List α, (chunksOf n l).flatten = l
  | [] => by simp [chunksOf, chunksOfAux]
  | a :: as => by
      rw [chunksOf_cons n hn]
      simp only [List.flatten_cons]
      rw [chunksOf_flatten n hn ((a :: as).drop n)]
      exact List.take_append_drop n (a :: as)
termination_by l => l.length
decreasing_by
  simp only [List.length_cons, List.length_drop]
  omega

/-- Every chunk contains at most `n` elements. -/
theorem chunksOf_length_le (n : Nat) (hn : 0 < n) :
    ∀ l : List α, ∀ g ∈ chunksOf n l, g.length ≤ n
  | [] => by simp [chunksOf, chunksOfAux]
  | a :: as => by
      intro g hg
      rw [chunksOf_cons n hn] at hg
      rcases List.mem_cons.mp hg with rfl | hg
      · exact List.length_take_le n (a :: as)
      · exact chunksOf_length_le n hn ((a :: as).drop n) g hg
termination_by l => l.length
decreasing_by
  simp only [List.length_cons, List.length_drop]
  omega

/-- The findings collected over the chunks number at most the scanned
tables, whatever the completion orders were. -/
theorem flatten_filterMap_length_le (sched : List String → List String)
    (hsched : ∀ l, List.Perm (sched l) l)
    (f : String → Option Vulnerability) :
    ∀ gs : List (List String),
      ((gs.map fun c => (sched c).filterMap f).flatten).length ≤
        gs.flatten.length := by
  intro gs
  induction gs with
  | nil => simp
  | cons g gs ih =>
      simp only [List.map_cons, List.flatten_cons, List.length_append]
      have h1 : ((sched g).filterMap f).length ≤ (sched g).length :=
        List.length_filterMap_le f (sched g)
      have h2 : (sched g).length = g.length := (hsched g).length_eq
      omega

/-- C3: on every scan result the total equals vulnerable plus secure, and
the total never exceeds the configured `maxTables` cap (default 10). -/
theorem scanProject_summary_invariant (options : ScanOptions)
    (hasAnthropicKey : Bool) (catalogResp : HttpResponse)
    (catalogRows : List CatalogRow) (probe : String → ProbeOutcome)
    (ai : String → AiOutcome) (sched : List String → List String)
    (hsched : ∀ l, List.Perm (sched l) l) :
    (scanProject options hasAnthropicKey catalogResp catalogRows probe ai
        sched).summary.total_tables =
      (scanProject options hasAnthropicKey catalogResp catalogRows probe ai
        sched).summary.vulnerable_tables +
      (scanProject options hasAnthropicKey catalogResp catalogRows probe ai
        sched).summary.secure_tables ∧
    (scanProject options hasAnthropicKey catalogResp catalogRows probe ai
        sched).summary.total_tables ≤ options.maxTables.getD 10 := by
  by_cases hok : catalogResp.ok
  · by_cases hrows : catalogRows.isEmpty
    · simp [scanProject, executeQuery, hok, hrows]
    · have hcount : (((chunksOf CONCURRENCY_LIMIT
          ((catalogRows.map (·.table_name)).take (options.maxTables.getD 10))).map
            fun chunk => (sched chunk).filterMap
              (scanTable (options.enableAI.getD true && hasAnthropicKey)
                (catalogRows.map fun row => (row.table_name, row.rls_enabled))
                probe ai)).flatten).length ≤
          ((catalogRows.map (·.table_name)).take
            (options.maxTables.getD 10)).length := by
        calc _ ≤ ((chunksOf CONCURRENCY_LIMIT
            ((catalogRows.map (·.table_name)).take
              (options.maxTables.getD 10))).flatten).length :=
              flatten_filterMap_length_le sched hsched _ _
          _ = _ := by
              rw [chunksOf_flatten CONCURRENCY_LIMIT (by decide)]
      have hcap : ((catalogRows.map (·.table_name)).take
          (options.maxTables.getD 10)).length ≤ options.maxTables.getD 10 :=
        List.length_take_le _ _
      simp only [scanProject, executeQuery, hok, if_true, hrows,
        Bool.false_eq_true, if_false]
      constructor
      · omega
      · exact hcap
  · simp [scanProject, executeQuery, hok]

/-- C3 witness: evaluated with the identity completion order on a concrete
twelve-table catalog. -/
theorem scanProject_summary_invariant_witness :
    (∀ l : List String, List.Perm ((fun x => x) l) l) ∧
    ((scanProject {} false (HttpResponse.mk true 200 "")
        ((List.range 12).map fun i => ⟨"t" ++ toString i, false⟩)
        (fun _ => .rows [[("id", "1")]]) (fun _ => .failed)
        (fun x => x)).summary.total_tables =
      (scanProject {} false (HttpResponse.mk true 200 "")
        ((List.range 12).map fun i => ⟨"t" ++ toString i, false⟩)
        (fun _ => .rows [[("id", "1")]]) (fun _ => .failed)
        (fun x => x)).summary.vulnerable_tables +
      (scanProject {} false (HttpResponse.mk true 200 "")
        ((List.range 12).map fun i => ⟨"t" ++ toString i, false⟩)
        (fun _ => .rows [[("id", "1")]]) (fun _ => .failed)
        (fun x => x)).summary.secure_tables ∧
     (scanProject {} false (HttpResponse.mk true 200 "")
        ((List.range 12).map fun i => ⟨"t" ++ toString i, false⟩)
        (fun _ => .rows [[("id", "1")]]) (fun _ => .failed)
        (fun x => x)).summary.total_tables ≤
      ({} : ScanOptions).maxTables.getD 10) :=
  ⟨fun l => List.Perm.refl l,
    scanProject_summary_invariant {} false (HttpResponse.mk true 200 "")
      ((List.range 12).map fun i => ⟨"t" ++ toString i, false⟩)
      (fun _ => .rows [[("id", "1")]]) (fun _ => .failed)
      (fun x => x) (fun l => List.Perm.refl l)⟩

/-! ### Risk-classifier degradation, claim C10 -/

/-- A finding with its optional AI annotation removed. -/
def stripAiAnalysis (v : Vulnerability) : Vulnerability :=
  { v with ai_analysis := none }

/-- With no Anthropic client configured, any finding `scanTable` emits
carries no AI annotation. -/
theorem scanTable_ai_none (tableRlsStatus : List (String × Bool))
    (probe : String → ProbeOutcome) (ai : String → AiOutcome)
    (tableName : String) (v : Vulnerability)
    (h : scanTable false tableRlsStatus probe ai tableName = some v) :
    v.ai_analysis = none := by
  unfold scanTable at h
  split at h
  · rename_i firstRow rest heq
    cases h
    simp [analyzeWithAI]
  · exact absurd h (by simp)
  · exact absurd h (by simp)
  · exact absurd h (by simp)

/-- C10: an unconfigured, unreachable or unparseable classifier yields no
annotation; the classifier outcome and configuration never change which
findings are emitted nor any field besides `ai_analysis`; and with the
classifier unconfigured every emitted finding lacks the annotation while the
scan still succeeds whenever the catalog query succeeded. -/
theorem classifier_degrades_gracefully (options : ScanOptions)
    (tableRlsStatus : List (String × Bool)) (probe : String → ProbeOutcome)
    (ai ai' : String → AiOutcome) (anthropic anthropic' : Bool)
    (tableName : String) (catalogResp : HttpResponse)
    (catalogRows : List CatalogRow) (sched : List String → List String) :
    (∀ outcome, analyzeWithAI false outcome = none) ∧
    (∀ configured, analyzeWithAI configured .failed = none) ∧
    (scanTable anthropic tableRlsStatus probe ai tableName).map stripAiAnalysis
      = (scanTable anthropic' tableRlsStatus probe ai' tableName).map
          stripAiAnalysis ∧
    (∀ v ∈ (scanProject options false catalogResp catalogRows probe ai
        sched).vulnerabilities, v.ai_analysis = none) ∧
    (catalogResp.ok = true →
      (scanProject options false catalogResp catalogRows probe ai
        sched).success = true) := by
  refine ⟨fun outcome => rfl, ?_, ?_, ?_, ?_⟩
  · intro configured
    cases configured <;> rfl
  · unfold scanTable
    cases hp : probe tableName with
    | rows data => cases data <;> simp [stripAiAnalysis]
    | queryError => rfl
    | exception => rfl
  · intro v hv
    by_cases hok : catalogResp.ok
    · by_cases hrows : catalogRows.isEmpty
      · simp [scanProject, executeQuery, hok, hrows] at hv
      · simp only [scanProject, executeQuery, hok, if_true, hrows,
          Bool.false_eq_true, if_false, Bool.and_false] at hv
        rw [List.mem_flatten] at hv
        obtain ⟨part, hpart, hvpart⟩ := hv
        rw [List.mem_map] at hpart
        obtain ⟨chunk, _, rfl⟩ := hpart
        rw [List.mem_filterMap] at hvpart
        obtain ⟨tn, _, htn⟩ := hvpart
        exact scanTable_ai_none _ probe ai tn v htn
    · simp [scanProject, executeQuery, hok] at hv
  · intro hok
    by_cases hrows : catalogRows.isEmpty <;>
      simp [scanProject, executeQuery, hok, hrows]

/-- C10 witness: one exposed table scanned with the classifier unconfigured
still yields its finding, with `ai_analysis` absent, and the scan succeeds. -/
theorem classifier_degrades_gracefully_witness :
    (HttpResponse.mk true 200 "").ok = true ∧
    (∀ v ∈ (scanProject {} false (HttpResponse.mk true 200 "")
        [⟨"user_secrets", false⟩] (fun _ => .rows [[("id", "1")]])
        (fun _ => .failed) (fun l => l)).vulnerabilities,
      v.ai_analysis = none) ∧
    (scanProject {} false (HttpResponse.mk true 200 "")
        [⟨"user_secrets", false⟩] (fun _ => .rows [[("id", "1")]])
        (fun _ => .failed) (fun l => l)).success = true :=
  ⟨rfl,
    (classifier_degrades_gracefully {} [] (fun _ => .rows [[("id", "1")]])
      (fun _ => .failed) (fun _ => .failed) false false ""
      (HttpResponse.mk true 200 "") [⟨"user_secrets", false⟩]
      (fun l => l)).2.2.2.1,
    (classifier_degrades_gracefully {} [] (fun _ => .rows [[("id", "1")]])
      (fun _ => .failed) (fun _ => .failed) false false ""
      (HttpResponse.mk true 200 "") [⟨"user_secrets", false⟩]
      (fun l => l)).2.2.2.2 rfl⟩

/-! ### Finding order and determinism, claim C7

`scanProject` never re-sorts `vulnerabilities`: each entry is pushed when its
`scanTable` promise completes, so within a concurrency group the list order
is the completion order, not the table-name order from schema discovery.
The finding multiset and the summary are nevertheless schedule-independent. -/

/-- Chunk-wise findings under any completion order are a permutation of the
findings under program (table-name) order. -/
theorem flatten_filterMap_perm (sched : List String → List String)
    (hsched : ∀ l, List.Perm (sched l) l)
    (f : String → Option Vulnerability) :
    ∀ gs : List (List String),
      List.Perm ((gs.map fun c => (sched c).filterMap f).flatten)
        ((gs.map fun c => c.filterMap f).flatten) := by
  intro gs
  induction gs with
  | nil => exact List.Perm.refl _
  | cons g gs ih =>
      simp only [List.map_cons, List.flatten_cons]
      exact List.Perm.append ((hsched g).filterMap f) ih

/-- C7 counterexample: with two exposed tables in one concurrency group and
the probes completing in reverse order, the returned finding list is
`bananas` before `apples` — not the table-name order from schema discovery —
and differs from the run whose probes complete in program order.  (The
reversed completion order is a genuine permutation of the group.) -/
theorem scanProject_order_counterexample :
    (∀ l : List String, List.Perm (List.reverse l) l) ∧
    ((scanProject {} false (HttpResponse.mk true 200 "")
        [⟨"apples", false⟩, ⟨"bananas", false⟩]
        (fun _ => .rows [[("id", "1")]]) (fun _ => .failed)
        List.reverse).vulnerabilities.map (·.table) = ["bananas", "apples"]) ∧
    ((scanProject {} false (HttpResponse.mk true 200 "")
        [⟨"apples", false⟩, ⟨"bananas", false⟩]
        (fun _ => .rows [[("id", "1")]]) (fun _ => .failed)
        List.reverse).vulnerabilities.map (·.table) ≠
      ([⟨"apples", false⟩, ⟨"bananas", false⟩] : List CatalogRow).map
        (·.table_name)) ∧
    (scanProject {} false (HttpResponse.mk true 200 "")
        [⟨"apples", false⟩, ⟨"bananas", false⟩]
        (fun _ => .rows [[("id", "1")]]) (fun _ => .failed)
        List.reverse ≠
      scanProject {} false (HttpResponse.mk true 200 "")
        [⟨"apples", false⟩, ⟨"bananas", false⟩]
        (fun _ => .rows [[("id", "1")]]) (fun _ => .failed) (fun l => l)) :=
  ⟨fun l => List.reverse_perm l, by decide, by decide, by decide⟩

/-- C7 (amended): for a fixed catalog and fixed per-table probe outcomes the
finding multiset, the summary, the success flag and the error are all
independent of the completion order of the concurrent probes within a group;
the finding list itself is ordered by completion order within each group
(not necessarily by table name). -/
theorem scanProject_schedule_independent (options : ScanOptions)
    (hasAnthropicKey : Bool) (catalogResp : HttpResponse)
    (catalogRows : List CatalogRow) (probe : String → ProbeOutcome)
    (ai : String → AiOutcome) (sched : List String → List String)
    (hsched : ∀ l, List.Perm (sched l) l) :
    List.Perm
      (scanProject options hasAnthropicKey catalogResp catalogRows probe ai
        sched).vulnerabilities
      (scanProject options hasAnthropicKey catalogResp catalogRows probe ai
        (fun l => l)).vulnerabilities ∧
    (scanProject options hasAnthropicKey catalogResp catalogRows probe ai
        sched).summary =
      (scanProject options hasAnthropicKey catalogResp catalogRows probe ai
        (fun l => l)).summary ∧
    (scanProject options hasAnthropicKey catalogResp catalogRows probe ai
        sched).success =
      (scanProject options hasAnthropicKey catalogResp catalogRows probe ai
        (fun l => l)).success ∧
    (scanProject options hasAnthropicKey catalogResp catalogRows probe ai
        sched).error =
      (scanProject options hasAnthropicKey catalogResp catalogRows probe ai
        (fun l => l)).error := by
  by_cases hok : catalogResp.ok
  · by_cases hrows : catalogRows.isEmpty
    · simp [scanProject, executeQuery, hok, hrows]
    · have hperm := flatten_filterMap_perm sched hsched
        (scanTable (options.enableAI.getD true && hasAnthropicKey)
          (catalogRows.map fun row => (row.table_name, row.rls_enabled))
          probe ai)
        (chunksOf CONCURRENCY_LIMIT
          ((catalogRows.map (·.table_name)).take (options.maxTables.getD 10)))
      have hlen := hperm.length_eq
      simp only [scanProject, executeQuery, hok, if_true, hrows,
        Bool.false_eq_true, if_false]
      exact ⟨hperm, by rw [hlen], by trivial, by trivial⟩
  · simp [scanProject, executeQuery, hok]

/-- C7 (amended) witness: the reverse completion order on the concrete
two-table scan yields a permutation of the program-order findings and the
identical summary. -/
theorem scanProject_schedule_independent_witness :
    (∀ l : List String, List.Perm (List.reverse l) l) ∧
    List.Perm
      (scanProject {} false (HttpResponse.mk true 200 "")
        [⟨"apples", false⟩, ⟨"bananas", false⟩]
        (fun _ => .rows [[("id", "1")]]) (fun _ => .failed)
        List.reverse).vulnerabilities
      (scanProject {} false (HttpResponse.mk true 200 "")
        [⟨"apples", false⟩, ⟨"bananas", false⟩]
        (fun _ => .rows [[("id", "1")]]) (fun _ => .failed)
        (fun l => l)).vulnerabilities ∧
    (scanProject {} false (HttpResponse.mk true 200 "")
        [⟨"apples", false⟩, ⟨"bananas", false⟩]
        (fun _ => .rows [[("id", "1")]]) (fun _ => .failed)
        List.reverse).summary =
      (scanProject {} false (HttpResponse.mk true 200 "")
        [⟨"apples", false⟩, ⟨"bananas", false⟩]
        (fun _ => .rows [[("id", "1")]]) (fun _ => .failed)
        (fun l => l)).summary :=
  ⟨fun l => List.reverse_perm l,
    (scanProject_schedule_independent {} false (HttpResponse.mk true 200 "")
      [⟨"apples", false⟩, ⟨"bananas", false⟩]
      (fun _ => .rows [[("id", "1")]]) (fun _ => .failed)
      List.reverse (fun l => List.reverse_perm l)).1,
    (scanProject_schedule_independent {} false (HttpResponse.mk true 200 "")
      [⟨"apples", false⟩, ⟨"bananas", false⟩]
      (fun _ => .rows [[("id", "1")]]) (fun _ => .failed)
      List.reverse (fun l => List.reverse_perm l)).2.1⟩

/-! ### Concurrency bound, claim C9 -/

/-- A prefix of a concatenation is a prefix of the left part or extends it
into the right part. -/
theorem prefix_append_cases {α : Type} {p a b : List α} (h : p <+: a ++ b) :
    p <+: a ∨ ∃ q, q <+: b ∧ p = a ++ q := by
  induction a generalizing p with
  | nil =>
      right
      exact ⟨p, by simpa using h, by simp⟩
  | cons x xs ih =>
      cases p with
      | nil => left; exact List.nil_prefix
      | cons y ys =>
          rw [List.cons_append] at h
          obtain ⟨hxy, h'⟩ := List.cons_prefix_cons.mp h
          subst hxy
          rcases ih h' with h'' | ⟨q, hq, rfl⟩
          · left
            exact List.cons_prefix_cons.mpr ⟨rfl, h''⟩
          · right
            exact ⟨q, hq, by simp⟩

/-- A prefix of a cons cell is empty or starts with its head. -/
theorem prefix_cons_cases {α : Type} {p : List α} {x : α} {l : List α}
    (h : p <+: x :: l) : p = [] ∨ ∃ q, q <+: l ∧ p = x :: q := by
  cases p with
  | nil => left; rfl
  | cons y ys =>
      obtain ⟨hxy, h'⟩ := List.cons_prefix_cons.mp h
      subst hxy
      exact Or.inr ⟨ys, h', rfl⟩

/-- A group's trace starts as many probes as the group has tables. -/
theorem countP_start_groupTrace (sched : List String → List String)
    (g : List String) :
    (groupTrace sched g).countP isProbeStart = g.length := by
  unfold groupTrace
  rw [List.countP_append, List.countP_map, List.countP_map]
  have h1 : (isProbeStart ∘ ScanEvent.probeStart) = fun _ : String => true := by
    funext a
    rfl
  have h2 : (isProbeStart ∘ ScanEvent.probeFinish) = fun _ : String => false := by
    funext a
    rfl
  rw [h1, h2, List.countP_true, List.countP_false]
  simp

/-- A group's trace finishes as many probes as the completion order lists. -/
theorem countP_finish_groupTrace (sched : List String → List String)
    (g : List String) :
    (groupTrace sched g).countP isProbeFinish = (sched g).length := by
  unfold groupTrace
  rw [List.countP_append, List.countP_map, List.countP_map]
  have h1 : (isProbeFinish ∘ ScanEvent.probeStart) = fun _ : String => false := by
    funext a
    rfl
  have h2 : (isProbeFinish ∘ ScanEvent.probeFinish) = fun _ : String => true := by
    funext a
    rfl
  rw [h1, h2, List.countP_true, List.countP_false]
  simp

/-- Membership of a start event in a group's trace. -/
theorem probeStart_mem_groupTrace (sched : List String → List String)
    (g : List String) (u : String) :
    ScanEvent.probeStart u ∈ groupTrace sched g ↔ u ∈ g := by
  simp [groupTrace]

/-- Membership of a finish event in a group's trace. -/
theorem probeFinish_mem_groupTrace (sched : List String → List String)
    (g : List String) (t : String) :
    ScanEvent.probeFinish t ∈ groupTrace sched g ↔ t ∈ sched g := by
  simp [groupTrace]

/-- Along any prefix of the group-sequential trace, at most `n` probes are
outstanding, provided every group has at most `n` tables: earlier groups
contribute equally many starts and finishes, and the current group at most
`n` starts. -/
theorem countP_le_of_groups (sched : List String → List String)
    (hsched : ∀ l, List.Perm (sched l) l) (n : Nat) :
    ∀ gs : List (List String), (∀ g ∈ gs, g.length ≤ n) →
      ∀ p, p <+: (gs.map (groupTrace sched)).flatten →
        p.countP isProbeStart ≤ p.countP isProbeFinish + n := by
  intro gs
  induction gs with
  | nil =>
      intro _ p hp
      rw [List.prefix_nil.mp hp]
      simp
  | cons g gs ih =>
      intro hg p hp
      simp only [List.map_cons, List.flatten_cons] at hp
      rcases prefix_append_cases hp with hp' | ⟨q, hq, rfl⟩
      · have h1 : p.countP isProbeStart ≤
            (groupTrace sched g).countP isProbeStart :=
          hp'.sublist.countP_le _
        have h2 := countP_start_groupTrace sched g
        have h3 : g.length ≤ n := hg g (by simp)
        omega
      · rw [List.countP_append, List.countP_append]
        have h2 := countP_start_groupTrace sched g
        have h4 := countP_finish_groupTrace sched g
        have h5 : (sched g).length = g.length := (hsched g).length_eq
        have h6 := ih (fun g' hg' => hg g' (by simp [hg'])) q hq
        omega

/-- C9: along every execution of the scan, the schema-discovery completion
is the first event, at no point are more than `CONCURRENCY_LIMIT` probes in
flight, and for any two groups the earlier group's probes all finish before
any probe of the later group starts (the trace splits at the group
boundary). -/
theorem scanTrace_concurrency (sched : List String → List String)
    (tableNames : List String) (maxTables : Nat)
    (hsched : ∀ l, List.Perm (sched l) l) :
    (∀ p, p <+: scanTrace sched tableNames maxTables →
      inFlight p ≤ CONCURRENCY_LIMIT) ∧
    (scanTrace sched tableNames maxTables).head? = some .catalogQuery ∧
    (∀ i j (hi : i < (chunksOf CONCURRENCY_LIMIT
          (tableNames.take maxTables)).length)
        (hj : j < (chunksOf CONCURRENCY_LIMIT
          (tableNames.take maxTables)).length),
      i < j → (tableNames.take maxTables).Nodup →
      ∃ pre post, scanTrace sched tableNames maxTables = pre ++ post ∧
        (∀ t ∈ (chunksOf CONCURRENCY_LIMIT (tableNames.take maxTables)).get
            ⟨i, hi⟩,
          ScanEvent.probeFinish t ∈ pre ∧ ScanEvent.probeFinish t ∉ post) ∧
        (∀ u ∈ (chunksOf CONCURRENCY_LIMIT (tableNames.take maxTables)).get
            ⟨j, hj⟩,
          ScanEvent.probeStart u ∈ post ∧ ScanEvent.probeStart u ∉ pre)) := by
  set ts := tableNames.take maxTables with hts
  set gs := chunksOf CONCURRENCY_LIMIT ts with hgs
  have hglen : ∀ g ∈ gs, g.length ≤ CONCURRENCY_LIMIT :=
    chunksOf_length_le CONCURRENCY_LIMIT (by decide) ts
  refine ⟨?_, rfl, ?_⟩
  · intro p hp
    unfold scanTrace at hp
    rcases prefix_cons_cases hp with rfl | ⟨q, hq, rfl⟩
    · simp [inFlight]
    · have hbound := countP_le_of_groups sched hsched CONCURRENCY_LIMIT gs
        hglen q hq
      have hs : (ScanEvent.catalogQuery :: q).countP isProbeStart =
          q.countP isProbeStart :=
        List.countP_cons_of_neg _ q (by simp [isProbeStart])
      have hf : (ScanEvent.catalogQuery :: q).countP isProbeFinish =
          q.countP isProbeFinish :=
        List.countP_cons_of_neg _ q (by simp [isProbeFinish])
      unfold inFlight
      omega
  · intro i j hi hj hij hnodup
    have hnodupf : gs.flatten.Nodup := by
      rw [hgs, chunksOf_flatten CONCURRENCY_LIMIT (by decide) ts]
      exact hnodup
    refine ⟨ScanEvent.catalogQuery ::
        ((gs.take j).map (groupTrace sched)).flatten,
      ((gs.drop j).map (groupTrace sched)).flatten, ?_, ?_, ?_⟩
    · unfold scanTrace
      rw [← hts, ← hgs]
      rw [List.cons_append]
      congr 1
      rw [← List.flatten_append, ← List.map_append, List.take_append_drop]
    · intro t ht
      have htj : gs.get ⟨i, hi⟩ ∈ gs.take j := by
        have hlen : i < (gs.take j).length := by
          simp only [List.length_take]
          omega
        have : (gs.take j).get ⟨i, hlen⟩ = gs.get ⟨i, hi⟩ := by
          simp [List.getElem_take]
        rw [← this]
        exact List.get_mem _ _ _
      constructor
      · simp only [List.mem_cons, List.mem_flatten]
        right
        refine ⟨groupTrace sched (gs.get ⟨i, hi⟩), List.mem_map_of_mem _ htj, ?_⟩
        rw [probeFinish_mem_groupTrace]
        exact (hsched _).mem_iff.mpr ht
      · intro hmem
        rw [List.mem_flatten] at hmem
        obtain ⟨part, hpart, hvpart⟩ := hmem
        rw [List.mem_map] at hpart
        obtain ⟨g', hg', rfl⟩ := hpart
        rw [probeFinish_mem_groupTrace] at hvpart
        have htg' : t ∈ g' := (hsched g').mem_iff.mp hvpart
        -- t lies in a group of the prefix and a group of the suffix: this
        -- contradicts the no-duplicates hypothesis on the scanned tables
        have hsplit : gs.flatten = (gs.take j).flatten ++ (gs.drop j).flatten := by
          rw [← List.flatten_append, List.take_append_drop]
        rw [hsplit, List.nodup_append] at hnodupf
        exact hnodupf.2.2 (List.mem_flatten.mpr ⟨gs.get ⟨i, hi⟩, htj, ht⟩)
          (List.mem_flatten.mpr ⟨g', hg', htg'⟩)
    · intro u hu
      have hdropj : gs.get ⟨j, hj⟩ ∈ gs.drop j := by
        rw [List.drop_eq_getElem_cons hj]
        exact List.mem_cons_self _ _
      constructor
      · rw [List.mem_flatten]
        refine ⟨groupTrace sched (gs.get ⟨j, hj⟩),
          List.mem_map_of_mem _ hdropj, ?_⟩
        rw [probeStart_mem_groupTrace]
        exact hu
      · intro hmem
        simp only [List.mem_cons, List.mem_flatten] at hmem
        rcases hmem with hmem | ⟨part, hpart, hvpart⟩
        · cases hmem
        · rw [List.mem_map] at hpart
          obtain ⟨g', hg', rfl⟩ := hpart
          rw [probeStart_mem_groupTrace] at hvpart
          have hsplit : gs.flatten =
              (gs.take j).flatten ++ (gs.drop j).flatten := by
            rw [← List.flatten_append, List.take_append_drop]
          rw [hsplit, List.nodup_append] at hnodupf
          exact hnodupf.2.2 (List.mem_flatten.mpr ⟨g', hg', hvpart⟩)
            (List.mem_flatten.mpr ⟨gs.get ⟨j, hj⟩, hdropj, hu⟩)

/-- C9 witness: the concurrency bound evaluated with the identity completion
order on a concrete six-table catalog. -/
theorem scanTrace_concurrency_witness :
    (∀ l : List String, List.Perm ((fun x => x) l) l) ∧
    (∀ p, p <+: scanTrace (fun x => x) ["t1", "t2", "t3", "t4", "t5", "t6"] 10 →
      inFlight p ≤ CONCURRENCY_LIMIT) ∧
    (scanTrace (fun x => x) ["t1", "t2", "t3", "t4", "t5", "t6"] 10).head? =
      some .catalogQuery :=
  ⟨fun l => List.Perm.refl l,
    (scanTrace_concurrency (fun x => x) ["t1", "t2", "t3", "t4", "t5", "t6"] 10
      (fun l => List.Perm.refl l)).1,
    (scanTrace_concurrency (fun x => x) ["t1", "t2", "t3", "t4", "t5", "t6"] 10
      (fun l => List.Perm.refl l)).2.1⟩

end RlsScanner
